import Mathlib

/-
Verification development for the Ants-vs-SomeBees simulation engine
(src/ants/ants.py), shallowly embedded over a single-tunnel board
(the layouts used by the program register one linear chain of places
per tunnel; every claim concerns behaviour along one entrance/exit
chain, so the embedding models one tunnel).

Conventions of the embedding:
  - Python ints are modelled as Int (armor, damage, food) or Nat
    (time, indices, identifiers).
  - Object identity is modelled by numeric identifiers (aid for ants,
    bid for bees); the engine creates each insect with a fresh id and
    never duplicates an insect between occupant structures, so
    id-based lookup and removal coincide with identity-based lookup
    and removal in the source.
  - tunnel is the list of registered places of the single tunnel in
    registration order: index 0 is the place whose exit is the
    AntQueen place, index (length - 1) is the bee entrance whose
    entrance is the Hive.
  - random.choice over a nonempty sequence is modelled by an oracle
    seed list carried in the colony: each call consumes one seed and
    picks index (seed mod length).  The single tunnel has exactly one
    bee entrance, so the entrance choice during wave release is
    independent of the seed.
  - Exceptions that escape the engine (KeyError from dictionary
    lookup, AssertionError from Place.add_insect / remove_insect,
    AttributeError) are modelled with Except Err.
-/

namespace AntsGame

/-- The implemented Ant subclasses that the engine can instantiate.
Note SlowThrower and StunThrower inherit name Thrower and define no
behaviour of their own, so the registry entry named Thrower behaves
exactly like ThrowerAnt; the kind thrower stands for it. -/
inductive AntKind where
  | harvester
  | thrower
  | long
  | short
  | scuba
  | wall
  | ninja
  | bodyguard
  | queen
deriving DecidableEq

/-- Class attribute container (True only for BodyguardAnt). -/
def AntKind.container : AntKind → Bool
  | .bodyguard => true
  | _ => false

/-- Class attribute blocks_path (False only for NinjaAnt). -/
def AntKind.blocks_path : AntKind → Bool
  | .ninja => false
  | _ => true

/-- Class attribute watersafe (True for ScubaThrower and its subclass QueenAnt). -/
def AntKind.watersafe : AntKind → Bool
  | .scuba => true
  | .queen => true
  | _ => false

/-- Class attribute damage, the initial per-instance damage. -/
def AntKind.base_damage : AntKind → Int
  | .thrower => 1
  | .long => 1
  | .short => 1
  | .scuba => 1
  | .queen => 1
  | .ninja => 1
  | _ => 0

/-- Class attribute food_cost. -/
def AntKind.food_cost : AntKind → Int
  | .harvester => 2
  | .thrower => 4
  | .long => 3
  | .short => 3
  | .scuba => 5
  | .wall => 4
  | .ninja => 6
  | .bodyguard => 4
  | .queen => 6

/-- Armor given by the constructor (Ant default 1, WallAnt 4, BodyguardAnt 2). -/
def AntKind.start_armor : AntKind → Int
  | .wall => 4
  | .bodyguard => 2
  | _ => 1

/-- Class attribute min_range (LongThrower overrides it to 4). -/
def AntKind.min_range : AntKind → Nat
  | .long => 4
  | _ => 0

/-- Class attribute max_range (ShortThrower overrides it to 2). -/
def AntKind.max_range : AntKind → Nat
  | .short => 2
  | _ => 10

/-- The mutable per-instance state of one ant: identity, kind, armor,
damage (doubled by the queen buff) and the QueenAnt imposter flag. -/
structure AntCore where
  aid : Nat
  kind : AntKind
  armor : Int
  damage : Int
  imposter : Bool
deriving DecidableEq

/-- A visible occupant of a place: its core plus, for a BodyguardAnt,
the ant hidden inside it.  Place.add_insect only ever stores a
non-container ant inside a container, so held ants hold nothing and
are represented by a bare core. -/
structure Ant where
  core : AntCore
  held : Option AntCore
deriving DecidableEq

/-- A bee: identity and armor. -/
structure Bee where
  bid : Nat
  armor : Int
deriving DecidableEq

/-- One registered place of the tunnel: at most one visible ant, a
list of bees, and whether it is a Water place. -/
structure Place where
  ant : Option Ant
  bees : List Bee
  water : Bool
deriving DecidableEq

/-- The AntColony state together with the class-level state of
QueenAnt (exists, strength) that is global to one run.
  - antQueenBees: bees of the AntQueen place (the protected endpoint,
    which is never registered in colony.places).
  - tunnel: the registered places in registration order.
  - hive: the not-yet-released bees, each with its scheduled wave time.
  - captured: the chain of QueenPlace wrappers around colony.queen:
    the list of tunnel indices captured as ant_queen places, oldest
    first ([] means colony.queen is still the bare AntQueen place).
  - strength: the aids recorded by the queen buff (QueenAnt.strength).
  - nextId: source of fresh aids for constructed ants. -/
structure Colony where
  antQueenBees : List Bee
  tunnel : List Place
  hive : List (Nat × Bee)
  food : Int
  time : Nat
  captured : List Nat
  queenExists : Bool
  strength : List Nat
  nextId : Nat
  seeds : List Nat
deriving DecidableEq

/-- Errors: exceptions that escape into AntColony.simulate. -/
inductive Err where
  | keyError
  | twoAnts
  | assertFailed
  | attrError
deriving DecidableEq

/-- Result of a whole simulation run. -/
inductive Outcome where
  | won
  | lost
  | outOfFuel
  | crashed (e : Err)
deriving DecidableEq

/-- One command issued by the placement strategy during the deploy
step: deploy_ant with a place index and a registry name, or
remove_ant with a place index. -/
inductive Command where
  | deployCmd (placeIdx : Nat) (kindName : String)
  | removeCmd (placeIdx : Nat)
deriving DecidableEq

/-! ### Basic state combinators -/

/-- Update the element at an index of a list, identity out of range. -/
def updateAt {α : Type} : List α → Nat → (α → α) → List α
  | [], _, _ => []
  | a :: l, 0, f => f a :: l
  | a :: l, n + 1, f => a :: updateAt l n f

/-- The bees of tunnel place k (empty out of range). -/
def beesAt (t : List Place) (k : Nat) : List Bee :=
  ((t.get? k).map Place.bees).getD []

/-- The visible ant of tunnel place k. -/
def slotAnt (c : Colony) (k : Nat) : Option Ant :=
  ((c.tunnel.get? k).map Place.ant).getD none

/-- Whether tunnel place k is a Water place. -/
def waterAt (c : Colony) (k : Nat) : Bool :=
  ((c.tunnel.get? k).map Place.water).getD false

/-- Replace the visible ant of place k. -/
def setSlot (k : Nat) (v : Option Ant) (c : Colony) : Colony :=
  { c with tunnel := updateAt c.tunnel k (fun p => { p with ant := v }) }

/-- Transform the bee list of place k. -/
def modBees (k : Nat) (f : List Bee → List Bee) (c : Colony) : Colony :=
  { c with tunnel := updateAt c.tunnel k (fun p => { p with bees := f p.bees }) }

/-- Consume one random seed (0 when the oracle list is exhausted). -/
def popSeed (c : Colony) : Nat × Colony :=
  (c.seeds.headD 0, { c with seeds := c.seeds.tail })

/-- Append one aid to QueenAnt.strength. -/
def pushStrength (a : Nat) (c : Colony) : Colony :=
  { c with strength := c.strength ++ [a] }

/-- Advance colony time by one. -/
def incTime (c : Colony) : Colony :=
  { c with time := c.time + 1 }

/-! ### Placement and removal (Place.add_insect / Place.remove_insect) -/

/-- Ant.can_contain: self is a container, the other is not, and self
is not already holding an ant. -/
def can_contain (a : Ant) (other : Ant) : Bool :=
  a.core.kind.container && !other.core.kind.container && a.held.isNone

/-- The ant branch of Place.add_insect: either contain, be contained,
or occupy the empty slot; any other combination raises the assertion
Two ants in place.  Containment stores the core of the otherwise
empty newcomer (contain_ant). -/
def add_to_slot (slot : Option Ant) (insect : Ant) : Except Err (Option Ant) :=
  match slot with
  | some e =>
    if can_contain e insect then .ok (some { e with held := some insect.core })
    else if can_contain insect e then .ok (some { insect with held := some e.core })
    else .error .twoAnts
  | none => .ok (some insect)

/-- The effect of Place.remove_insect on the slot when the visible
ant a is removed: a container reveals its held ant; removing the
true (non-imposter) queen is a no-op that leaves her in the slot;
any other ant vacates the slot. -/
def remove_visible (a : Ant) : Option Ant :=
  if a.core.kind.container then
    match a.held with
    | some h => some { core := h, held := none }
    | none => none
  else if a.core.kind = .queen ∧ a.core.imposter = false then some a
  else none

/-- Insect.reduce_armor on the armor value alone: armor -= amount. -/
def reduce_armor (armor amount : Int) : Int := armor - amount

/-- Bee.sting applied to the visible ant of a place: reduce its armor
by 1 and, if the armor is no longer positive, remove it from the
place by remove_visible. -/
def sting_ant (a : Ant) : Option Ant :=
  let a1 : Ant := { a with core := { a.core with armor := reduce_armor a.core.armor 1 } }
  if a1.core.armor ≤ 0 then remove_visible a1 else some a1

/-! ### Thrower attacks -/

/-- random_or_none: a random element of the list picked by the seed,
none for the empty list. -/
def random_or_none (seed : Nat) (s : List Bee) : Option Bee :=
  if h : s = [] then none
  else some (s.get ⟨seed % s.length, by
    have : 0 < s.length := List.length_pos.mpr h
    exact Nat.mod_lt _ this⟩)

/-- The while loop of ThrowerAnt.nearest_bee, with explicit fuel for
structural recursion: starting from index k, advance along entrances
while the current place has no bees and its entrance is not the Hive
(the entrance of index j is index j+1, and the entrance of the last
index is the Hive).  Returns the index where the walk stops.  The
loop advances k while k+1 < length, so fuel t.length always
suffices. -/
def scan_up_fuel (t : List Place) : Nat → Nat → Nat
  | 0, k => k
  | fuel + 1, k =>
    if k + 1 < t.length ∧ beesAt t k = [] then scan_up_fuel t fuel (k + 1) else k

/-- The nearest_bee walk with its sufficient fuel. -/
def scan_up (t : List Place) (k : Nat) : Nat :=
  scan_up_fuel t t.length k

/-- ThrowerAnt.nearest_bee from index k: stop at the nearest place
with bees (or the last place); if its hop distance i satisfies
min_range ≤ i ≤ max_range and it has bees, pick a random bee there,
else None.  (The place can never be the Hive itself, so the explicit
Hive check of the source never fires.) -/
def nearest_bee (t : List Place) (minR maxR : Nat) (seed : Nat) (k : Nat) : Option Bee :=
  let q := scan_up t k
  let i := q - k
  if minR ≤ i ∧ i ≤ maxR ∧ beesAt t q ≠ [] then random_or_none seed (beesAt t q)
  else none

/-- ThrowerAnt.throw_at via Insect.reduce_armor for the bee at list
index idx: reduce its armor by dmg and, when the armor is no longer
positive, place.bees.remove drops exactly that object, at index idx. -/
def throw_hit (idx : Nat) (dmg : Int) (bees : List Bee) : List Bee :=
  match bees.get? idx with
  | none => bees
  | some b =>
    if reduce_armor b.armor dmg ≤ 0 then bees.eraseIdx idx
    else bees.set idx { b with armor := reduce_armor b.armor dmg }

/-- Throw at the bee at list index idx of place q. -/
def hit_bee_at (q idx : Nat) (dmg : Int) (c : Colony) : Colony :=
  modBees q (throw_hit idx dmg) c

/-- ThrowerAnt.action for an ant with the given ranges and damage at
index k: find the target place by nearest_bee and throw. -/
def thrower_action (minR maxR : Nat) (dmg : Int) (k : Nat) (c : Colony) : Colony :=
  let q := scan_up c.tunnel k
  let i := q - k
  if minR ≤ i ∧ i ≤ maxR ∧ beesAt c.tunnel q ≠ [] then
    let sc := popSeed c
    hit_bee_at q (sc.1 % (beesAt c.tunnel q).length) dmg sc.2
  else c

/-- The loop of LongThrower.nearest_bee: from current index j at hop
distance i, while the entrance of the current place is not the Hive,
step to the entrance and return it as the target place when the
distance reaches min_range and it has bees.  (The elif comparing the
place to the Hive is unreachable: the loop guard already stopped
before stepping into the Hive.)  Returns the index of the chosen
place. -/
def long_target_fuel (t : List Place) (minR : Nat) : Nat → Nat → Nat → Option Nat
  | 0, _, _ => none
  | fuel + 1, j, i =>
    if j + 1 < t.length then
      if minR ≤ i + 1 ∧ beesAt t (j + 1) ≠ [] then some (j + 1)
      else long_target_fuel t minR fuel (j + 1) (i + 1)
    else none

/-- The LongThrower walk with its sufficient fuel (the loop advances
j while j+1 < length, so fuel t.length always suffices: once the fuel
is below the remaining distance the walk would already have
stopped). -/
def long_target (t : List Place) (minR : Nat) (j i : Nat) : Option Nat :=
  long_target_fuel t minR t.length j i

/-- LongThrower.nearest_bee from index k: a random bee of the target
place found by the loop. -/
def long_nearest_bee (t : List Place) (seed : Nat) (k : Nat) : Option Bee :=
  match long_target t AntKind.long.min_range k 0 with
  | some q => random_or_none seed (beesAt t q)
  | none => none

/-- LongThrower action (inherited ThrowerAnt.action with the
overridden nearest_bee). -/
def long_action (dmg : Int) (k : Nat) (c : Colony) : Colony :=
  match long_target c.tunnel AntKind.long.min_range k 0 with
  | some q =>
    if beesAt c.tunnel q ≠ [] then
      let sc := popSeed c
      hit_bee_at q (sc.1 % (beesAt c.tunnel q).length) dmg sc.2
    else c
  | none => c

/-! ### NinjaAnt -/

/-- The index loop of NinjaAnt.action over the bees of its place.
len_bees always equals the current length of the list, so the loop
guard i < len_bees is i < bees.length.  A bee whose armor is at most
the damage dies from reduce_armor and place.bees.remove drops exactly
that object, which sits at index i (bees are distinct objects), after
which the source rewinds i by one and advances it again; a surviving
bee keeps its slot and i advances.  (The guard comparing len_bees to
the empty list is an int-vs-list comparison that is always true.) -/
def ninja_loop_fuel (dmg : Int) : Nat → List Bee → Nat → List Bee
  | 0, bees, _ => bees
  | fuel + 1, bees, i =>
    if h : i < bees.length then
      let b := bees.get ⟨i, h⟩
      if b.armor ≤ dmg then ninja_loop_fuel dmg fuel (bees.eraseIdx i) i
      else ninja_loop_fuel dmg fuel (bees.set i { b with armor := reduce_armor b.armor dmg }) (i + 1)
    else bees

/-- The NinjaAnt loop with its sufficient fuel (each iteration
settles one original occupant, so fuel bees.length suffices when the
loop starts at i = 0). -/
def ninja_loop (dmg : Int) (bees : List Bee) (i : Nat) : List Bee :=
  ninja_loop_fuel dmg bees.length bees i

/-! ### Queen buff propagation -/

/-- Double the damage of the visible ant of place k. -/
def double_slot_damage (k : Nat) (c : Colony) : Colony :=
  setSlot k ((slotAnt c k).map fun a =>
    { a with core := { a.core with damage := a.core.damage * 2 } }) c

/-- Double the damage of the ant held inside the visible ant of
place k. -/
def double_held_damage (k : Nat) (c : Colony) : Colony :=
  setSlot k ((slotAnt c k).map fun a =>
    { a with held := a.held.map fun h => { h with damage := h.damage * 2 } }) c

/-- strength_check of QueenAnt.action at place k: if the place holds
an ant not yet in strength, double its damage and record it; inside
that branch, if that ant is a container holding an ant not yet in the
(updated) strength, double the held damage and record it too. -/
def strength_check (k : Nat) (c : Colony) : Colony :=
  match slotAnt c k with
  | none => c
  | some a =>
    if a.core.aid ∈ c.strength then c
    else
      let c1 := pushStrength a.core.aid (double_slot_damage k c)
      match a.held with
      | some h =>
        if a.core.kind.container = true ∧ h.aid ∉ c1.strength then
          pushStrength h.aid (double_held_damage k c1)
        else c1
      | none => c1

/-- The entrance walk of QueenAnt.action from the queen place k: the
entrance chain visits indices k+1 .. length-1 and then the Hive,
where strength_check finds no ant; the links never change, so the
walk is the fold of strength_check over those indices in order. -/
def queen_walk_up (k : Nat) (c : Colony) : Colony :=
  ((List.range (c.tunnel.length - (k + 1))).map (fun d => k + 1 + d)).foldl
    (fun c j => strength_check j c) c

/-- The exit walk of QueenAnt.action from the queen place k: the exit
chain visits indices k-1 .. 0 and then the AntQueen place, which
never holds an ant. -/
def queen_walk_down (k : Nat) (c : Colony) : Colony :=
  ((List.range k).reverse).foldl (fun c j => strength_check j c) c

/-- QueenAnt.action for the queen core qc acting at place k.  The
hasattr guard of the source tests for an attribute named QueenPlace
that no object has, so every action wraps colony.queen in a further
QueenPlace capturing the acting queen place.  An imposter then
reduces her own armor to zero and is removed from her place (if she
is not the visible occupant, remove_insect fails its assertion).  The
true queen performs the inherited ThrowerAnt action, doubles a
not-yet-recorded container at her own place, and runs strength_check
along the entrance walk and then the exit walk. -/
def queen_action (k : Nat) (qc : AntCore) (c : Colony) : Except Err Colony :=
  let c0 : Colony := { c with captured := c.captured ++ [k] }
  if qc.imposter then
    match slotAnt c0 k with
    | some a =>
      if a.core.aid = qc.aid then
        .ok (setSlot k
          (remove_visible { a with core := { a.core with armor := reduce_armor a.core.armor a.core.armor } }) c0)
      else .error .assertFailed
    | none => .error .assertFailed
  else
    let c1 := thrower_action AntKind.queen.min_range AntKind.queen.max_range qc.damage k c0
    match slotAnt c1 k with
    | none => .error .attrError
    | some a =>
      let c2 :=
        if a.core.kind.container = true ∧ a.core.aid ∉ c1.strength then
          pushStrength a.core.aid (double_slot_damage k c1)
        else c1
      .ok (queen_walk_down k (queen_walk_up k c2))

/-! ### Ant actions -/

/-- The action of an ant core acting at place k, dispatched on its
kind (held ants delegate through this as well; a held container
cannot occur). -/
def core_action (k : Nat) (x : AntCore) (c : Colony) : Except Err Colony :=
  match x.kind with
  | .harvester => .ok { c with food := c.food + 1 }
  | .wall => .ok c
  | .thrower => .ok (thrower_action x.kind.min_range x.kind.max_range x.damage k c)
  | .short => .ok (thrower_action x.kind.min_range x.kind.max_range x.damage k c)
  | .scuba => .ok (thrower_action x.kind.min_range x.kind.max_range x.damage k c)
  | .long => .ok (long_action x.damage k c)
  | .ninja => .ok (modBees k (fun bs => ninja_loop x.damage bs 0) c)
  | .queen => queen_action k x c
  | .bodyguard => .ok c

/-- The action of the visible ant a at place k: a bodyguard delegates
to its held ant (BodyguardAnt.action), every other kind acts as its
core. -/
def ant_action (k : Nat) (a : Ant) (c : Colony) : Except Err Colony :=
  match a.core.kind with
  | .bodyguard =>
    match a.held with
    | some h => core_action k h c
    | none => .ok c
  | _ => core_action k a.core c

/-- The ants property of AntColony: the aids of the visible ants in
registration order (the Hive is registered first and never holds an
ant; the tunnel places follow in registration order). -/
def ants_snapshot : List Place → List Nat
  | [] => []
  | p :: t =>
    (match p.ant with
     | some a => [a.core.aid]
     | none => []) ++ ants_snapshot t

/-- Find the place index and visible ant with the given aid. -/
def find_ant (t : List Place) (aid : Nat) : Option (Nat × Ant) :=
  match t with
  | [] => none
  | p :: rest =>
    match p.ant with
    | some a =>
      if a.core.aid = aid then some (0, a)
      else (find_ant rest aid).map (fun r => (r.1 + 1, r.2))
    | none => (find_ant rest aid).map (fun r => (r.1 + 1, r.2))

/-- One iteration of the ant loop of AntColony.simulate: the
snapshot entry still on the board acts when its armor is positive. -/
def perform_ant (c : Colony) (aid : Nat) : Except Err Colony :=
  match find_ant c.tunnel aid with
  | some r => if r.2.core.armor > 0 then ant_action r.1 r.2 c else .ok c
  | none => .ok c

/-- The ant phase: every visible ant of the snapshot taken at phase
start acts once, in registration order. -/
def ant_actions (c : Colony) : Except Err Colony :=
  (ants_snapshot c.tunnel).foldl
    (fun ec aid => match ec with
      | .error e => .error e
      | .ok c => perform_ant c aid) (.ok c)

/-! ### Bee actions -/

/-- The bees property of AntColony: bids of all bees of registered
places, Hive first, then tunnel places in registration order (bees at
the AntQueen place are not registered and not included). -/
def bee_snapshot (c : Colony) : List Nat :=
  c.hive.map (fun tb => tb.2.bid) ++ (c.tunnel.map (fun p => p.bees.map Bee.bid)).flatten

/-- Find the tunnel index and bee with the given bid. -/
def find_bee (t : List Place) (bid : Nat) : Option (Nat × Bee) :=
  match t with
  | [] => none
  | p :: rest =>
    match p.bees.find? (fun b => b.bid = bid) with
    | some b => some (0, b)
    | none => (find_bee rest bid).map (fun r => (r.1 + 1, r.2))

/-- list.remove of the bee with the given bid: drop its first
occurrence. -/
def erase_bee (bid : Nat) : List Bee → List Bee
  | [] => []
  | b :: rest => if b.bid = bid then rest else b :: erase_bee bid rest

/-- Bee.move_to the exit of tunnel index k: remove from place k and
add to index k-1, or to the AntQueen place when k = 0. -/
def move_bee (k : Nat) (b : Bee) (c : Colony) : Colony :=
  let c1 := modBees k (erase_bee b.bid) c
  if k = 0 then { c1 with antQueenBees := c1.antQueenBees ++ [b] }
  else modBees (k - 1) (fun bs => bs ++ [b]) c1

/-- One iteration of the bee loop of AntColony.simulate: a bee still
in the Hive does nothing; a bee in the tunnel with positive armor
stings the blocking ant of its place if blocked, otherwise moves to
the exit; snapshot bees no longer in a registered place (dead, or
already moved to the AntQueen place) do nothing. -/
def bee_act (c : Colony) (bid : Nat) : Colony :=
  if c.hive.any (fun tb => tb.2.bid = bid) then c
  else
    match find_bee c.tunnel bid with
    | none => c
    | some r =>
      if r.2.armor > 0 then
        match slotAnt c r.1 with
        | some a =>
          if a.core.kind.blocks_path then setSlot r.1 (sting_ant a) c
          else move_bee r.1 r.2 c
        | none => move_bee r.1 r.2 c
      else c

/-- The bee phase: every bee of the snapshot taken at phase start
acts once. -/
def bee_actions (c : Colony) : Colony :=
  (bee_snapshot c).foldl bee_act c

/-! ### Wave release, deployment, removal -/

/-- Hive.strategy: every bee scheduled for the current time moves
from the Hive to a random bee entrance; the single tunnel has exactly
one (the last registered place), so each move consumes a seed and
lands there. -/
def wave_release (c : Colony) : Colony :=
  let rel := c.hive.filter (fun tb => tb.1 = c.time)
  let c0 := { c with hive := c.hive.filter (fun tb => ¬ tb.1 = c.time) }
  rel.foldl (fun c tb =>
    let sc := popSeed c
    modBees (sc.2.tunnel.length - 1) (fun bs => bs ++ [tb.2]) sc.2) c0

/-- The registry built by ant_types(): name to implemented class.
The names Thrower maps to through the subclass scan are ThrowerAnt,
then SlowThrower, then StunThrower, which define no behaviour of
their own, so the entry behaves as ThrowerAnt. -/
def ant_types_lookup : String → Option AntKind
  | "Harvester" => some .harvester
  | "Thrower" => some .thrower
  | "Long" => some .long
  | "Short" => some .short
  | "Scuba" => some .scuba
  | "Wall" => some .wall
  | "Ninja" => some .ninja
  | "Bodyguard" => some .bodyguard
  | "Queen" => some .queen
  | _ => none

/-- Place.add_insect for a deployed ant at place k followed by the
Water override: a non-watersafe insect placed on water has its armor
reduced to zero and is removed (if it was contained rather than
visible, remove_insect fails its assertion); afterwards deploy_ant
deducts the food cost. -/
def add_insect_deploy (k : Nat) (insect : Ant) (cost : Int) (c : Colony) : Except Err Colony :=
  match add_to_slot (slotAnt c k) insect with
  | .error e => .error e
  | .ok slot1 =>
    let c1 := setSlot k slot1 c
    let c2E : Except Err Colony :=
      if waterAt c1 k = true ∧ insect.core.kind.watersafe = false then
        match slotAnt c1 k with
        | some a =>
          if a.core.aid = insect.core.aid then
            .ok (setSlot k
              (remove_visible { a with core := { a.core with armor := reduce_armor a.core.armor a.core.armor } }) c1)
          else .error .assertFailed
        | none => .error .assertFailed
      else .ok c1
    match c2E with
    | .error e => .error e
    | .ok c2 => .ok { c2 with food := c2.food - cost }

/-- AntColony.deploy_ant: an unregistered kind name raises KeyError
from the registry lookup; with insufficient food the deployment is
reported and skipped; otherwise the constructor runs (a QueenAnt
constructed while one exists becomes an imposter) and the ant is
added at the named place. -/
def deploy_ant (c : Colony) (k : Nat) (name : String) : Except Err Colony :=
  match ant_types_lookup name with
  | none => .error .keyError
  | some kind =>
    if c.food < kind.food_cost then .ok c
    else if k < c.tunnel.length then
      let imp : Bool := if kind = .queen then c.queenExists else false
      let c1 := if kind = .queen then { c with queenExists := true } else c
      let insect : Ant :=
        { core := { aid := c1.nextId, kind := kind, armor := kind.start_armor,
                    damage := kind.base_damage, imposter := imp },
          held := none }
      add_insect_deploy k insect kind.food_cost { c1 with nextId := c1.nextId + 1 }
    else .error .keyError

/-- AntColony.remove_ant: look up the place (KeyError when the name
is unregistered) and remove its visible ant if any. -/
def remove_ant (c : Colony) (k : Nat) : Except Err Colony :=
  if k < c.tunnel.length then
    match slotAnt c k with
    | some a => .ok (setSlot k (remove_visible a) c)
    | none => .ok c
  else .error .keyError

/-- One strategy command. -/
def apply_command (c : Colony) : Command → Except Err Colony
  | .deployCmd k name => deploy_ant c k name
  | .removeCmd k => remove_ant c k

/-- The deployment step: the strategy issues its commands in order;
an exception escaping a command aborts the step (and with it the
tick), exactly as an exception escaping strategy(self) aborts
AntColony.simulate. -/
def deploy_step (cmds : List Command) (c : Colony) : Except Err Colony :=
  cmds.foldl (fun ec cmd => match ec with
    | .error e => .error e
    | .ok c => apply_command c cmd) (.ok c)

/-! ### The turn engine -/

/-- A placement strategy: the commands issued at a given time. -/
def Strategy := Nat → List Command

/-- One tick of AntColony.simulate, in the order of the source: wave
release, deployment, ant actions, bee actions, time increment. -/
def tick (strat : Strategy) (c : Colony) : Except Err Colony :=
  let c1 := wave_release c
  match deploy_step (strat c1.time) c1 with
  | .error e => .error e
  | .ok c2 =>
    match ant_actions c2 with
    | .error e => .error e
    | .ok c3 => .ok (incTime (bee_actions c3))

/-- The bees of colony.queen: the AntQueen place plus every place
captured by a QueenPlace wrapper. -/
def queen_bees (c : Colony) : List Bee :=
  c.antQueenBees ++ (c.captured.map (fun i => beesAt c.tunnel i)).flatten

/-- The bees property of AntColony: all bees of registered places
(Hive included, AntQueen place excluded). -/
def all_bees (c : Colony) : List Bee :=
  c.hive.map (fun tb => tb.2) ++ (c.tunnel.map Place.bees).flatten

/-- AntColony.simulate with fuel: while no bee is at a queen place
and bees remain, run one full tick; on exit report lost when a queen
place holds a bee, won otherwise. -/
def simulate (strat : Strategy) : Nat → Colony → Outcome
  | 0, _ => .outOfFuel
  | fuel + 1, c =>
    if (queen_bees c).length = 0 ∧ (all_bees c).length > 0 then
      match tick strat c with
      | .error e => .crashed e
      | .ok c1 => simulate strat fuel c1
    else if (queen_bees c).length > 0 then .lost
    else .won

/-- Iterate the tick n times. -/
def run_ticks (strat : Strategy) : Nat → Colony → Except Err Colony
  | 0, c => .ok c
  | n + 1, c =>
    match tick strat c with
    | .error e => .error e
    | .ok c1 => run_ticks strat n c1

/-- The colony built for one run: an empty dry tunnel of the given
length, the configured food, and a Hive populated from the assault
plan (a list of scheduled times and bee armors, in plan order). -/
def mk_colony (len : Nat) (food : Int) (plan : List (Nat × Int)) : Colony :=
  { antQueenBees := []
    tunnel := List.replicate len { ant := none, bees := [], water := false }
    hive := (plan.enum).map (fun pi => (pi.2.1, { bid := pi.1, armor := pi.2.2 }))
    food := food
    time := 0
    captured := []
    queenExists := false
    strength := []
    nextId := 0
    seeds := [] }

/-! ### Claim C4: placement and containment rules -/

/-- The containment invariant of one place slot: at most one visible
defender; a defender holding another is a container, and the held
defender is not a container. -/
def SlotOk : Option Ant → Prop
  | none => True
  | some a =>
    (a.held ≠ none → a.core.kind.container = true) ∧
    (∀ h, a.held = some h → h.kind.container = false)

/-- Case form of the ant branch of Place.add_insect for a freshly
constructed newcomer. -/
theorem add_to_slot_eq (e x : Ant) (hx : x.held = none) :
    add_to_slot (some e) x =
      if e.core.kind.container = true ∧ e.held = none ∧ x.core.kind.container = false then
        .ok (some { e with held := some x.core })
      else if x.core.kind.container = true ∧ e.core.kind.container = false then
        .ok (some { x with held := some e.core })
      else .error .twoAnts := by
  cases hec : e.core.kind.container <;>
    cases hxc : x.core.kind.container <;>
    cases heh : e.held <;>
    simp [add_to_slot, can_contain, hx, hec, hxc, heh]

/-- C4: placing a defender x (freshly constructed, so holding
nothing) into a slot succeeds exactly when the slot is empty, or the
existing occupant is a container with free capacity and x is not a
container (x becomes its held ant), or x is a container and the
occupant is not (x becomes the visible occupant holding it); every
other combination raises the InvalidPlacement assertion, which
produces no new slot and leaves the place unchanged; and the slot
invariant holds after every placement and every removal. -/
theorem c4_placement_rules (s : Option Ant) (x : Ant) (hx : x.held = none) :
    ((∃ s1, add_to_slot s x = .ok s1) ↔
      (s = none ∨ ∃ e, s = some e ∧
        ((e.core.kind.container = true ∧ e.held = none ∧ x.core.kind.container = false) ∨
         (x.core.kind.container = true ∧ e.core.kind.container = false)))) ∧
    (add_to_slot s x = .error .twoAnts ↔
      ¬ (s = none ∨ ∃ e, s = some e ∧
        ((e.core.kind.container = true ∧ e.held = none ∧ x.core.kind.container = false) ∨
         (x.core.kind.container = true ∧ e.core.kind.container = false)))) ∧
    (s = none → add_to_slot s x = .ok (some x)) ∧
    (∀ e, s = some e → e.core.kind.container = true → e.held = none →
      x.core.kind.container = false →
      add_to_slot s x = .ok (some { e with held := some x.core })) ∧
    (∀ e, s = some e → x.core.kind.container = true → e.core.kind.container = false →
      add_to_slot s x = .ok (some { x with held := some e.core })) ∧
    (∀ s1, SlotOk s → add_to_slot s x = .ok s1 → SlotOk s1) ∧
    (∀ a, SlotOk (some a) → SlotOk (remove_visible a)) := by
  have main : ∀ e : Ant, add_to_slot (some e) x =
      if e.core.kind.container = true ∧ e.held = none ∧ x.core.kind.container = false then
        .ok (some { e with held := some x.core })
      else if x.core.kind.container = true ∧ e.core.kind.container = false then
        .ok (some { x with held := some e.core })
      else .error .twoAnts := fun e => add_to_slot_eq e x hx
  refine ⟨?_, ?_, ?_, ?_, ?_, ?_, ?_⟩
  · constructor
    · rintro ⟨s1, h1⟩
      match s with
      | none => exact Or.inl rfl
      | some e =>
        refine Or.inr ⟨e, rfl, ?_⟩
        rw [main e] at h1
        by_cases hc1 : e.core.kind.container = true ∧ e.held = none ∧ x.core.kind.container = false
        · exact Or.inl hc1
        · rw [if_neg hc1] at h1
          by_cases hc2 : x.core.kind.container = true ∧ e.core.kind.container = false
          · exact Or.inr hc2
          · rw [if_neg hc2] at h1; cases h1
    · rintro (rfl | ⟨e, rfl, (hc1 | hc2)⟩)
      · exact ⟨some x, rfl⟩
      · exact ⟨_, by rw [main e, if_pos hc1]⟩
      · by_cases hc1 : e.core.kind.container = true ∧ e.held = none ∧ x.core.kind.container = false
        · exact ⟨_, by rw [main e, if_pos hc1]⟩
        · exact ⟨_, by rw [main e, if_neg hc1, if_pos hc2]⟩
  · constructor
    · intro h1
      rintro (rfl | ⟨e, rfl, (hc1 | hc2)⟩)
      · simp [add_to_slot] at h1
      · rw [main e, if_pos hc1] at h1; cases h1
      · rw [main e] at h1
        by_cases hc1 : e.core.kind.container = true ∧ e.held = none ∧ x.core.kind.container = false
        · rw [if_pos hc1] at h1; cases h1
        · rw [if_neg hc1, if_pos hc2] at h1; cases h1
    · intro hno
      match s with
      | none => exact absurd (Or.inl rfl) hno
      | some e =>
        rw [main e,
          if_neg (fun hc1 => hno (Or.inr ⟨e, rfl, Or.inl hc1⟩)),
          if_neg (fun hc2 => hno (Or.inr ⟨e, rfl, Or.inr hc2⟩))]
  · rintro rfl; rfl
  · rintro e rfl h1 h2 h3
    rw [main e, if_pos ⟨h1, h2, h3⟩]
  · rintro e rfl h1 h2
    rw [main e]
    by_cases hc1 : e.core.kind.container = true ∧ e.held = none ∧ x.core.kind.container = false
    · exact absurd (h1.symm.trans hc1.2.2) (by simp)
    · rw [if_neg hc1, if_pos ⟨h1, h2⟩]
  · intro s1 hs h1
    match s with
    | none =>
      simp only [add_to_slot] at h1
      cases h1
      exact ⟨fun h => absurd hx h, fun h hh => by rw [hx] at hh; cases hh⟩
    | some e =>
      rw [main e] at h1
      by_cases hc1 : e.core.kind.container = true ∧ e.held = none ∧ x.core.kind.container = false
      · rw [if_pos hc1] at h1
        cases h1
        exact ⟨fun _ => hc1.1, by rintro h hh; cases hh; exact hc1.2.2⟩
      · rw [if_neg hc1] at h1
        by_cases hc2 : x.core.kind.container = true ∧ e.core.kind.container = false
        · rw [if_pos hc2] at h1
          cases h1
          exact ⟨fun _ => hc2.1, by rintro h hh; cases hh; exact hc2.2⟩
        · rw [if_neg hc2] at h1; cases h1
  · intro a ha
    simp only [remove_visible]
    by_cases hc : a.core.kind.container = true
    · rw [if_pos hc]
      match hh : a.held with
      | some h =>
        exact ⟨by simp, by rintro h2 hh2; cases hh2⟩
      | none => trivial
    · rw [if_neg hc]
      by_cases hq : a.core.kind = .queen ∧ a.core.imposter = false
      · rw [if_pos hq]; exact ha
      · rw [if_neg hq]; trivial

/-- Concrete bodyguard for the C4 witness. -/
def bodyguardW : Ant :=
  { core := { aid := 0, kind := .bodyguard, armor := 2, damage := 0, imposter := false },
    held := none }

/-- Concrete thrower for the C4 witness. -/
def throwerW : Ant :=
  { core := { aid := 1, kind := .thrower, armor := 1, damage := 1, imposter := false },
    held := none }

/-- C4 witness: adding a thrower to a place occupied by an empty
bodyguard stores it inside the bodyguard. -/
theorem c4_witness :
    add_to_slot (some bodyguardW) throwerW =
      .ok (some { core := bodyguardW.core, held := some throwerW.core }) :=
  (c4_placement_rules (some bodyguardW) throwerW rfl).2.2.2.1 bodyguardW rfl rfl rfl rfl

/-! ### Claim C3: armor monotone, expired units removed -/

/-- The authentic queen with one armor, as stung by a bee. -/
def trueQueenW : Ant :=
  { core := { aid := 5, kind := .queen, armor := 1, damage := 1, imposter := false },
    held := none }

/-- C3 counterexample: a bee sting takes the authentic queen to armor
0, yet she is still the visible occupant of her place immediately
after the causing action, because remove_insect is a no-op for the
true queen; so a unit with armor at most 0 is not always absent from
its location after the causing action. -/
theorem c3_counterexample :
    sting_ant trueQueenW =
      some { core := { aid := 5, kind := .queen, armor := 0, damage := 1, imposter := false },
             held := none } ∧
    (0 : Int) ≥ (({ aid := 5, kind := .queen, armor := 0, damage := 1, imposter := false} : AntCore).armor) := by
  constructor
  · rfl
  · decide

/-- C3 amended: armor never increases under a damage application
with non-negative amount; and any unit other than the authentic
queen whose armor reaches zero or below is absent from its location
occupant structures immediately after the causing action (a stung
container disappears in favour of its held ant, which is a distinct
object; a dead bee leaves the attacker list).  The authentic queen
is the one exception: her removal is a no-op. -/
theorem c3_amended :
    (∀ armor amount : Int, 0 ≤ amount → reduce_armor armor amount ≤ armor) ∧
    (∀ a : Ant, ¬(a.core.kind = .queen ∧ a.core.imposter = false) →
      (∀ h, a.held = some h → h.aid ≠ a.core.aid) →
      a.core.armor - 1 ≤ 0 →
      ∀ a1, sting_ant a = some a1 → a1.core.aid ≠ a.core.aid) ∧
    (∀ (bs : List Bee) (idx : Nat) (b : Bee) (dmg : Int),
      bs.get? idx = some b → reduce_armor b.armor dmg ≤ 0 →
      (bs.map Bee.bid).Nodup →
      b.bid ∉ (throw_hit idx dmg bs).map Bee.bid) := by
  refine ⟨?_, ?_, ?_⟩
  · intro armor amount h
    simp only [reduce_armor]
    omega
  · intro a hq hheld hdead a1 h1
    simp only [sting_ant, reduce_armor] at h1
    rw [if_pos (by omega : a.core.armor - 1 ≤ 0)] at h1
    simp only [remove_visible] at h1
    by_cases hc : a.core.kind.container = true
    · rw [if_pos hc] at h1
      match hh : a.held with
      | some h => rw [hh] at h1; cases h1; exact hheld h hh
      | none => rw [hh] at h1; cases h1
    · rw [if_neg hc, if_neg (by simpa using hq)] at h1
      cases h1
  · intro bs idx b dmg hget hdead hnd
    simp only [throw_hit, hget, if_pos hdead]
    induction bs generalizing idx with
    | nil => cases hget
    | cons hd tl ih =>
      match idx with
      | 0 =>
        simp only [List.get?] at hget
        cases hget
        have hnd2 : (∀ x ∈ tl, ¬x.bid = b.bid) ∧ (tl.map Bee.bid).Nodup := by
          simpa using hnd
        simp only [List.eraseIdx]
        intro hmem
        obtain ⟨x, hx, hxb⟩ := List.mem_map.mp hmem
        exact hnd2.1 x hx hxb
      | n + 1 =>
        simp only [List.get?] at hget
        have hmem : b ∈ tl := List.get?_mem hget
        have hnd2 : (∀ x ∈ tl, ¬x.bid = hd.bid) ∧ (tl.map Bee.bid).Nodup := by
          simpa using hnd
        simp only [List.eraseIdx, List.map_cons, List.mem_cons]
        push_neg
        exact ⟨hnd2.1 b hmem, ih n hget hnd2.2⟩

/-- C3 witness: a damage application of 2 on armor 5 does not
increase the armor. -/
theorem c3_witness : reduce_armor 5 2 ≤ 5 := c3_amended.1 5 2 (by decide)

/-! ### Claim C7: the area attacker hits every original occupant once -/

theorem get_append_len {α : Type} (pre : List α) (b : α) (post : List α)
    (h : pre.length < (pre ++ b :: post).length) :
    (pre ++ b :: post).get ⟨pre.length, h⟩ = b := by
  induction pre with
  | nil => rfl
  | cons hd tl ih => exact ih (by simp)

theorem eraseIdx_append_len {α : Type} (pre : List α) (b : α) (post : List α) :
    (pre ++ b :: post).eraseIdx pre.length = pre ++ post := by
  induction pre with
  | nil => rfl
  | cons hd tl ih => simp [List.eraseIdx, ih]

theorem set_append_len {α : Type} (pre : List α) (b b2 : α) (post : List α) :
    (pre ++ b :: post).set pre.length b2 = pre ++ b2 :: post := by
  induction pre with
  | nil => rfl
  | cons hd tl ih => simp [List.set, ih]

/-- The survivors transformation of one NinjaAnt pass. -/
def ninja_result (d : Int) (b : Bee) : Option Bee :=
  if b.armor ≤ d then none else some { b with armor := reduce_armor b.armor d }

theorem ninja_loop_go (d : Int) (post : List Bee) :
    ∀ (fuel : Nat) (pre : List Bee), post.length ≤ fuel →
      ninja_loop_fuel d fuel (pre ++ post) pre.length =
        pre ++ post.filterMap (ninja_result d) := by
  induction post with
  | nil =>
    intro fuel pre hf
    match fuel with
    | 0 => simp [ninja_loop_fuel]
    | n + 1 =>
      rw [ninja_loop_fuel]
      simp
  | cons b rest ih =>
    intro fuel pre hf
    match fuel with
    | 0 => exact absurd hf (by simp)
    | n + 1 =>
      rw [ninja_loop_fuel]
      have hlt : pre.length < (pre ++ b :: rest).length := by simp
      rw [dif_pos hlt, get_append_len pre b rest hlt]
      by_cases hb : b.armor ≤ d
      · rw [if_pos hb, eraseIdx_append_len pre b rest, ih n pre (by simpa using hf)]
        simp [ninja_result, hb]
      · rw [if_neg hb, set_append_len pre b _ rest]
        have := ih n (pre ++ [{ b with armor := reduce_armor b.armor d }]) (by simpa using hf)
        simp only [List.append_assoc, List.singleton_append, List.length_append,
          List.length_singleton] at this
        rw [this]
        simp [ninja_result, hb]

/-- C7: one NinjaAnt action over the bees of its place reduces the
armor of every bee present at action start by the ant damage exactly
once — the survivors are exactly the original occupants with armor
above the damage, each with armor lowered by the damage once, in
order, and the rest are removed; no occupant is skipped or hit
twice, despite removals happening mid-pass. -/
theorem c7_ninja_hits_each_once (d : Int) (bs : List Bee) :
    ninja_loop d bs 0 =
      bs.filterMap (fun b =>
        if b.armor ≤ d then none else some { b with armor := reduce_armor b.armor d }) := by
  have := ninja_loop_go d bs bs.length [] (le_refl _)
  simpa [ninja_loop, ninja_result] using this

/-! ### Claim C6: the long-range search -/

theorem random_or_none_isSome (seed : Nat) (s : List Bee) (h : s ≠ []) :
    (random_or_none seed s).isSome := by
  simp [random_or_none, h]

theorem random_or_none_mem (seed : Nat) (s : List Bee) (b : Bee)
    (h : random_or_none seed s = some b) : b ∈ s := by
  by_cases hs : s = []
  · simp [random_or_none, hs] at h
  · simp only [random_or_none, dif_neg hs] at h
    cases h
    exact List.get_mem s _ _

theorem long_target_some (t : List Place) (minR : Nat) :
    ∀ (fuel j i q : Nat), t.length - j ≤ fuel →
      long_target_fuel t minR fuel j i = some q →
      j < q ∧ q < t.length ∧ minR ≤ i + (q - j) ∧ beesAt t q ≠ [] ∧
        ∀ r, j < r → r < q → ¬(minR ≤ i + (r - j) ∧ beesAt t r ≠ []) := by
  intro fuel
  induction fuel with
  | zero =>
    intro j i q hf h
    cases h
  | succ n ih =>
    intro j i q hf h
    rw [long_target_fuel] at h
    by_cases hj : j + 1 < t.length
    · rw [if_pos hj] at h
      by_cases hc : minR ≤ i + 1 ∧ beesAt t (j + 1) ≠ []
      · rw [if_pos hc] at h
        cases h
        exact ⟨by omega, hj, by
          have := hc.1
          omega, hc.2, fun r hr1 hr2 => by omega⟩
      · rw [if_neg hc] at h
        obtain ⟨h1, h2, h3, h4, h5⟩ := ih (j + 1) (i + 1) q (by omega) h
        refine ⟨by omega, h2, by omega, h4, ?_⟩
        intro r hr1 hr2
        rcases Nat.lt_or_ge (j + 1) r with hr | hr
        · have := h5 r hr hr2
          intro hcon
          exact this ⟨by omega, hcon.2⟩
        · have hrj : r = j + 1 := by omega
          subst hrj
          intro hcon
          exact hc ⟨by omega, hcon.2⟩
    · rw [if_neg hj] at h
      cases h

theorem long_target_none (t : List Place) (minR : Nat) :
    ∀ (fuel j i : Nat), t.length - j ≤ fuel →
      long_target_fuel t minR fuel j i = none →
      ∀ r, j < r → r < t.length → ¬(minR ≤ i + (r - j) ∧ beesAt t r ≠ []) := by
  intro fuel
  induction fuel with
  | zero =>
    intro j i hf h r hr1 hr2
    omega
  | succ n ih =>
    intro j i hf h r hr1 hr2
    rw [long_target_fuel] at h
    by_cases hj : j + 1 < t.length
    · rw [if_pos hj] at h
      by_cases hc : minR ≤ i + 1 ∧ beesAt t (j + 1) ≠ []
      · rw [if_pos hc] at h
        cases h
      · rw [if_neg hc] at h
        rcases Nat.lt_or_ge (j + 1) r with hr | hr
        · have := ih (j + 1) (i + 1) (by omega) h r hr hr2
          intro hcon
          exact this ⟨by omega, hcon.2⟩
        · have hrj : r = j + 1 := by omega
          subst hrj
          intro hcon
          exact hc ⟨by omega, hcon.2⟩
    · omega

/-- C6: the LongThrower target search returns a bee exactly when some
bee sits at hop distance at least 4 along the entrance chain (with no
upper bound on the distance), and any returned bee lies at the
nearest place at distance at least 4 that has bees — every place at
distance 0 through 3 is skipped even when it holds nearer bees, and
every admissible place nearer than the chosen one is empty. -/
theorem c6_long_range_search (t : List Place) (seed k : Nat) :
    ((long_nearest_bee t seed k).isSome ↔
      ∃ q, q < t.length ∧ k + 4 ≤ q ∧ beesAt t q ≠ []) ∧
    (∀ b, long_nearest_bee t seed k = some b →
      ∃ q, q < t.length ∧ k + 4 ≤ q ∧ b ∈ beesAt t q ∧
        ∀ r, k + 4 ≤ r → r < q → beesAt t r = []) := by
  have hmin : AntKind.long.min_range = 4 := rfl
  constructor
  · constructor
    · intro h
      simp only [long_nearest_bee, hmin] at h
      match hq : long_target t 4 k 0 with
      | some q =>
        obtain ⟨h1, h2, h3, h4, _⟩ := long_target_some t 4 t.length k 0 q (by omega) hq
        exact ⟨q, h2, by omega, h4⟩
      | none => rw [hq] at h; simp at h
    · rintro ⟨q, hq1, hq2, hq3⟩
      simp only [long_nearest_bee, hmin]
      match hlt : long_target t 4 k 0 with
      | some q2 =>
        obtain ⟨_, _, _, h4, _⟩ := long_target_some t 4 t.length k 0 q2 (by omega) hlt
        exact random_or_none_isSome seed _ h4
      | none =>
        exact absurd ⟨by omega, hq3⟩ (long_target_none t 4 t.length k 0 (by omega) hlt q (by omega) hq1)
  · intro b hb
    simp only [long_nearest_bee, hmin] at hb
    match hq : long_target t 4 k 0 with
    | some q =>
      rw [hq] at hb
      obtain ⟨h1, h2, h3, h4, h5⟩ := long_target_some t 4 t.length k 0 q (by omega) hq
      refine ⟨q, h2, by omega, random_or_none_mem seed _ b hb, ?_⟩
      intro r hr1 hr2
      by_contra hbees
      exact h5 r (by omega) hr2 ⟨by omega, hbees⟩
    | none => rw [hq] at hb; cases hb

/-- Concrete tunnel for the C6 witness: a bee at distance 1 (skipped)
and a bee at distance 4 (the target). -/
def tunnelW : List Place :=
  [{ ant := none, bees := [], water := false },
   { ant := none, bees := [{ bid := 9, armor := 3 }], water := false },
   { ant := none, bees := [], water := false },
   { ant := none, bees := [], water := false },
   { ant := none, bees := [{ bid := 7, armor := 3 }], water := false },
   { ant := none, bees := [], water := false }]

/-- C6 witness: from index 0 of tunnelW the long-range search skips
the nearer bee at distance 1 and returns the bee at distance 4. -/
theorem c6_witness :
    ∃ q, q < tunnelW.length ∧ 0 + 4 ≤ q ∧ ({ bid := 7, armor := 3 } : Bee) ∈ beesAt tunnelW q ∧
      ∀ r, 0 + 4 ≤ r → r < q → beesAt tunnelW r = [] :=
  (c6_long_range_search tunnelW 0 0).2 { bid := 7, armor := 3 } (by decide)

/-! ### List update lemmas -/

theorem updateAt_length {α : Type} (l : List α) (k : Nat) (f : α → α) :
    (updateAt l k f).length = l.length := by
  induction l generalizing k with
  | nil => rfl
  | cons hd tl ih =>
    match k with
    | 0 => rfl
    | n + 1 => simp [updateAt, ih]

theorem updateAt_get?_eq {α : Type} (l : List α) (k : Nat) (f : α → α) :
    (updateAt l k f).get? k = (l.get? k).map f := by
  induction l generalizing k with
  | nil => rfl
  | cons hd tl ih =>
    match k with
    | 0 => rfl
    | n + 1 => simpa [updateAt] using ih n

theorem updateAt_get?_ne {α : Type} (l : List α) (k j : Nat) (f : α → α) (h : j ≠ k) :
    (updateAt l k f).get? j = l.get? j := by
  induction l generalizing k j with
  | nil => rfl
  | cons hd tl ih =>
    match k, j with
    | 0, 0 => exact absurd rfl h
    | 0, m + 1 => rfl
    | n + 1, 0 => rfl
    | n + 1, m + 1 => simpa [updateAt] using ih n m (by omega)

theorem slotAnt_setSlot_self (c : Colony) (k : Nat) (v : Option Ant)
    (h : k < c.tunnel.length) : slotAnt (setSlot k v c) k = v := by
  simp only [slotAnt, setSlot, updateAt_get?_eq]
  match hg : c.tunnel.get? k with
  | some p => rfl
  | none => exact absurd (List.get?_eq_none.mp hg) (by omega)

/-! ### Claim C8: removing a holding container promotes the held ant -/

theorem ants_snapshot_mem (t : List Place) :
    ∀ (k : Nat) (a : Ant), ((t.get? k).map Place.ant).getD none = some a →
      a.core.aid ∈ ants_snapshot t := by
  induction t with
  | nil => intro k a h; cases k <;> cases h
  | cons p rest ih =>
    intro k a h
    match k with
    | 0 =>
      have hpa : p.ant = some a := h
      simp [ants_snapshot, hpa]
    | n + 1 =>
      have hn : (Option.map Place.ant (rest.get? n)).getD none = some a := h
      simp only [ants_snapshot, List.mem_append]
      exact Or.inr (ih n a hn)

/-- C8: when a place holds a container defender that currently holds
another defender, removing it through AntColony.remove_ant promotes
the held defender to be the sole visible occupant of that place (the
place is not vacated), and the promoted defender appears in the ants
snapshot of the resulting colony, so it acts on the next tick. -/
theorem c8_container_reveal (c : Colony) (k : Nat) (a : Ant) (h : AntCore)
    (hk : k < c.tunnel.length) (hs : slotAnt c k = some a)
    (hcont : a.core.kind.container = true) (hheld : a.held = some h) :
    remove_ant c k = .ok (setSlot k (some { core := h, held := none }) c) ∧
    slotAnt (setSlot k (some { core := h, held := none }) c) k =
      some { core := h, held := none } ∧
    h.aid ∈ ants_snapshot (setSlot k (some { core := h, held := none }) c).tunnel := by
  have hrv : remove_visible a = some { core := h, held := none } := by
    simp [remove_visible, hcont, hheld]
  refine ⟨?_, ?_, ?_⟩
  · simp [remove_ant, hk, hs, hrv]
  · exact slotAnt_setSlot_self c k _ hk
  · have := slotAnt_setSlot_self c k (some { core := h, held := none }) hk
    exact ants_snapshot_mem _ k _ this

/-- Decidable equality of engine results. -/
instance exceptDecEq {e a : Type} [DecidableEq e] [DecidableEq a] :
    DecidableEq (Except e a) := fun x y =>
  match x, y with
  | .ok v, .ok w =>
    if h : v = w then isTrue (by rw [h]) else isFalse (by intro hc; cases hc; exact h rfl)
  | .error v, .error w =>
    if h : v = w then isTrue (by rw [h]) else isFalse (by intro hc; cases hc; exact h rfl)
  | .ok _, .error _ => isFalse (by intro hc; cases hc)
  | .error _, .ok _ => isFalse (by intro hc; cases hc)

/-! ### Claim C9: end-to-end scenario A -/

/-- The scenario A strategy: deploy the cost-4 ranged defender at the
place nearest the queen at time 0. -/
def stratA : Strategy := fun t => if t = 0 then [.deployCmd 0 "Thrower"] else []

/-- C9 counterexample: in the configuration exactly as claimed — a
chain of length 1, one wave of one armor-3 attacker at time 2,
starting food 2, the cost-4 thrower deployed at time 0 at the sole
location — the deployment is skipped for lack of food (food 2 is
below the cost 4), the slot stays empty and the food unchanged, the
attacker walks through, and the run terminates Lost, not Won. -/
theorem c9_counterexample :
    simulate stratA 10 (mk_colony 1 2 [(2, 3)]) = .lost ∧
    (run_ticks stratA 1 (mk_colony 1 2 [(2, 3)])).map
      (fun c => (slotAnt c 0, c.food)) = .ok (none, 2) := by
  constructor
  · decide
  · decide

/-- C9 amended: with starting food 4 (the cost of the deployed
defender) and a chain of length 3 (so that the attacker cannot kill
the defender and reach the protected place before it expires), the
engine reduces the attacker armor from 3 to 0 over the 3 ticks after
its spawn at time 2 and the run terminates Won. -/
theorem c9_amended :
    simulate stratA 10 (mk_colony 3 4 [(2, 3)]) = .won ∧
    (run_ticks stratA 3 (mk_colony 3 4 [(2, 3)])).map
      (fun c => (all_bees c).map Bee.armor) = .ok [2] ∧
    (run_ticks stratA 4 (mk_colony 3 4 [(2, 3)])).map
      (fun c => (all_bees c).map Bee.armor) = .ok [1] ∧
    (run_ticks stratA 5 (mk_colony 3 4 [(2, 3)])).map
      (fun c => (all_bees c).map Bee.armor) = .ok [] := by
  refine ⟨by decide, by decide, by decide, by decide⟩

/-! ### Claim C5: deployment error handling -/

/-- A strategy that deploys an unregistered kind name (LaserAnt has
implemented False, so Laser is not in the registry). -/
def stratBad : Strategy := fun t => if t = 0 then [.deployCmd 0 "Laser"] else []

/-- C5 counterexample: a deployment naming an unregistered defender
kind is not reported and skipped: the registry lookup of deploy_ant
raises KeyError, which no caller catches, so it aborts the tick and
crashes the run. -/
theorem c5_counterexample :
    deploy_ant (mk_colony 3 4 [(2, 3)]) 0 "Laser" = .error .keyError ∧
    simulate stratBad 10 (mk_colony 3 4 [(2, 3)]) = .crashed .keyError := by
  constructor
  · decide
  · decide

/-- C5 amended: an insufficient-food deployment is reported and
skipped, leaving the colony (including its food and places)
unchanged, and the tick continues to the defender-action step; but a
deployment naming an unregistered kind raises KeyError out of
deploy_ant, which aborts the tick unless the external strategy
catches it. -/
theorem c5_amended (c : Colony) (k : Nat) (name : String) :
    (ant_types_lookup name = none → deploy_ant c k name = .error .keyError) ∧
    (∀ kind, ant_types_lookup name = some kind → c.food < kind.food_cost →
      deploy_ant c k name = .ok c) := by
  constructor
  · intro h
    rw [deploy_ant, h]
  · intro kind h hfood
    rw [deploy_ant, h]
    simp [if_pos hfood]

/-- C5 witness: deploying a thrower with food 2 against cost 4 is
skipped and leaves the colony unchanged. -/
theorem c5_witness :
    deploy_ant (mk_colony 1 2 []) 0 "Thrower" = .ok (mk_colony 1 2 []) :=
  (c5_amended (mk_colony 1 2 []) 0 "Thrower").2 .thrower rfl (by decide)

/-! ### Claim C10: every queen action rewraps the loss check -/

/-- C10: whenever a queen acts — the imposter case included — the
loss-check structure colony.queen is rewrapped in a QueenPlace that
adds the acting queen place to the captured queen locations, before
the imposter reduces her own armor to zero and vacates her slot; and
in any later colony state whose captured list contains that place, an
attacker at that place makes the top-of-tick check report Lost. -/
theorem c10_imposter_rewrap (c : Colony) (k : Nat) (q : Ant)
    (hs : slotAnt c k = some q)
    (hq : q.core.kind = .queen) (himp : q.core.imposter = true) :
    queen_action k q.core c =
      .ok (setSlot k none { c with captured := c.captured ++ [k] }) ∧
    (∀ c2 : Colony, k ∈ c2.captured → beesAt c2.tunnel k ≠ [] →
      (queen_bees c2).length > 0 ∧
      ∀ (strat : Strategy) (fuel : Nat), simulate strat (fuel + 1) c2 = .lost) := by
  constructor
  · have hs0 : slotAnt { c with captured := c.captured ++ [k] } k = some q := hs
    have hc : AntKind.queen.container = false := rfl
    have hrv : remove_visible
        { core := { aid := q.core.aid, kind := q.core.kind,
                    armor := reduce_armor q.core.armor q.core.armor,
                    damage := q.core.damage, imposter := true },
          held := q.held } = none := by
      simp [remove_visible, hq, hc]
    simp [queen_action, himp, hs0]
    rw [hrv]
  · intro c2 hmem hbees
    have hlen : (queen_bees c2).length > 0 := by
      obtain ⟨b, hb⟩ := List.exists_mem_of_ne_nil _ hbees
      have : b ∈ queen_bees c2 := by
        simp only [queen_bees, List.mem_append, List.mem_flatten]
        exact Or.inr ⟨beesAt c2.tunnel k, List.mem_map_of_mem _ hmem, hb⟩
      exact List.length_pos.mpr (List.ne_nil_of_mem this)
    refine ⟨hlen, ?_⟩
    intro strat fuel
    rw [simulate, if_neg (by omega), if_pos hlen]

/-- Concrete imposter queen for the C10 witness. -/
def imposterW : Ant :=
  { core := { aid := 3, kind := .queen, armor := 1, damage := 1, imposter := true },
    held := none }

/-- Concrete colony for the C10 witness: the imposter occupies place
1 of a three-place tunnel. -/
def colW10 : Colony :=
  { antQueenBees := []
    tunnel := [{ ant := none, bees := [], water := false },
               { ant := some imposterW, bees := [], water := false },
               { ant := none, bees := [], water := false }]
    hive := []
    food := 5
    time := 0
    captured := []
    queenExists := true
    strength := []
    nextId := 4
    seeds := [] }

/-- C10 witness: the imposter at place 1 of colW10 captures her place
into the loss check and self-destructs; a bee at a captured place
makes the next top-of-tick check report Lost. -/
theorem c10_witness :
    queen_action 1 imposterW.core colW10 =
      .ok (setSlot 1 none { colW10 with captured := colW10.captured ++ [1] }) ∧
    (queen_bees { colW10 with
        captured := [1],
        tunnel := updateAt colW10.tunnel 1
          (fun p => { p with bees := [{ bid := 9, armor := 1 }] }) }).length > 0 :=
  ⟨(c10_imposter_rewrap colW10 1 imposterW rfl rfl rfl).1,
   ((c10_imposter_rewrap colW10 1 imposterW rfl rfl rfl).2
      { colW10 with
        captured := [1],
        tunnel := updateAt colW10.tunnel 1
          (fun p => { p with bees := [{ bid := 9, armor := 1 }] }) }
      (by decide) (by decide)).1⟩

/-! ### Claim C2: the tick structure and termination checks -/

/-- C2: one engine step first classifies the current state — Lost the
moment any queen location holds an attacker (checked before anything
else), Won when no attackers remain anywhere — and only otherwise
runs one full tick, which performs wave release, then deployment,
then ant actions, then bee actions, then the time increment, in that
fixed order; and the ant phase folds over the snapshot of visible
defenders in location-registration order (each acting only while its
armor is positive, inside perform_ant).  Termination is therefore
recognised only at the top of the next step: a tick that empties the
board or delivers an attacker to a queen location still completes
all five parts first. -/
theorem c2_tick_structure (strat : Strategy) (fuel : Nat) (c : Colony) :
    (simulate strat (fuel + 1) c =
      if (queen_bees c).length > 0 then .lost
      else if (all_bees c).length = 0 then .won
      else
        match tick strat c with
        | .error e => .crashed e
        | .ok c1 => simulate strat fuel c1) ∧
    (tick strat c =
      match deploy_step (strat (wave_release c).time) (wave_release c) with
      | .error e => .error e
      | .ok c2 =>
        match ant_actions c2 with
        | .error e => .error e
        | .ok c3 => .ok (incTime (bee_actions c3))) ∧
    (ant_actions c =
      (ants_snapshot c.tunnel).foldl
        (fun ec aid => match ec with
          | .error e => .error e
          | .ok c => perform_ant c aid) (.ok c)) := by
  refine ⟨?_, rfl, rfl⟩
  by_cases h1 : (queen_bees c).length > 0
  · rw [simulate, if_neg (by omega), if_pos h1, if_pos h1]
  · by_cases h2 : (all_bees c).length = 0
    · rw [simulate, if_neg (by omega), if_neg h1, if_neg h1, if_pos h2]
    · rw [simulate, if_pos ⟨by omega, by omega⟩, if_neg h1, if_neg h2]

/-! ### Claim C1: the queen buff doubles each defender at most once

The invariant: every ant core on the board carries either its kind
base damage, or exactly twice it and is then recorded in
QueenAnt.strength.  Every engine operation either preserves all core
data (aid, kind, damage), introduces a freshly constructed core at
base damage, or is one of the guarded doublings of QueenAnt.action,
which only fires on a core not yet recorded and records it. -/

/-- The ant cores stored in one slot (visible plus held). -/
def slotCores : Option Ant → List AntCore
  | none => []
  | some a =>
    a.core ::
      (match a.held with
       | some h => [h]
       | none => [])

/-- All ant cores on the board. -/
def boardCores : List Place → List AntCore
  | [] => []
  | p :: t => slotCores p.ant ++ boardCores t

/-- One core is sound for a given strength record. -/
def coreOk (strength : List Nat) (x : AntCore) : Prop :=
  x.damage = x.kind.base_damage ∨
    (x.damage = 2 * x.kind.base_damage ∧ x.aid ∈ strength)

/-- The run invariant behind C1. -/
def DmgInv (c : Colony) : Prop :=
  ∀ x ∈ boardCores c.tunnel, coreOk c.strength x

/-- Core data relevant to the invariant. -/
def sameData (x y : AntCore) : Prop :=
  x.aid = y.aid ∧ x.kind = y.kind ∧ x.damage = y.damage

theorem coreOk_mono {s1 s2 : List Nat} (h : ∀ a ∈ s1, a ∈ s2) {x : AntCore} :
    coreOk s1 x → coreOk s2 x := by
  rintro (h1 | ⟨h1, h2⟩)
  · exact Or.inl h1
  · exact Or.inr ⟨h1, h x.aid h2⟩

theorem coreOk_transfer {s : List Nat} {x y : AntCore} (hd : sameData x y) :
    coreOk s y → coreOk s x := by
  obtain ⟨h1, h2, h3⟩ := hd
  rintro (hy | ⟨hy1, hy2⟩)
  · exact Or.inl (by rw [h3, h2, hy])
  · exact Or.inr ⟨by rw [h3, h2, hy1], by rw [h1]; exact hy2⟩

theorem dmgInv_same {c c2 : Colony} (hb : boardCores c2.tunnel = boardCores c.tunnel)
    (hs : c2.strength = c.strength) : DmgInv c → DmgInv c2 := by
  intro h x hx
  rw [hs]
  exact h x (hb ▸ hx)

theorem mem_boardCores_setSlot {t : List Place} {v : Option Ant} {x : AntCore} :
    ∀ {k : Nat}, x ∈ boardCores (updateAt t k (fun p => { p with ant := v })) →
      x ∈ boardCores t ∨ x ∈ slotCores v := by
  induction t with
  | nil => intro k hx; cases hx
  | cons p rest ih =>
    intro k hx
    match k with
    | 0 =>
      simp only [updateAt, boardCores, List.mem_append] at hx ⊢
      rcases hx with hx | hx
      · exact Or.inr hx
      · exact Or.inl (Or.inr hx)
    | n + 1 =>
      simp only [updateAt, boardCores, List.mem_append] at hx ⊢
      rcases hx with hx | hx
      · exact Or.inl (Or.inl hx)
      · rcases ih hx with hx | hx
        · exact Or.inl (Or.inr hx)
        · exact Or.inr hx

theorem slot_sub_boardCores (t : List Place) :
    ∀ (k : Nat) (a : Ant), ((t.get? k).map Place.ant).getD none = some a →
      ∀ x ∈ slotCores (some a), x ∈ boardCores t := by
  induction t with
  | nil => intro k a h; cases k <;> cases h
  | cons p rest ih =>
    intro k a h x hx
    match k with
    | 0 =>
      have hpa : p.ant = some a := h
      simp only [boardCores, List.mem_append, hpa]
      exact Or.inl hx
    | n + 1 =>
      have hn : (Option.map Place.ant (rest.get? n)).getD none = some a := h
      simp only [boardCores, List.mem_append]
      exact Or.inr (ih n a hn x hx)

theorem boardCores_updateAt_bees (t : List Place) (k : Nat)
    (f : List Bee → List Bee) :
    boardCores (updateAt t k (fun p => { p with bees := f p.bees })) = boardCores t := by
  induction t generalizing k with
  | nil => rfl
  | cons p rest ih =>
    match k with
    | 0 => rfl
    | n + 1 => simp [updateAt, boardCores, ih]

theorem slotAnt_lt_length {c : Colony} {k : Nat} {a : Ant}
    (h : slotAnt c k = some a) : k < c.tunnel.length := by
  by_contra hk
  have hnone : c.tunnel.get? k = none := List.get?_eq_none.mpr (by omega)
  have h2 : slotAnt c k = none := by
    simp only [slotAnt]
    rw [hnone]
    rfl
  rw [h2] at h
  cases h

theorem remove_visible_sub (a : Ant) :
    ∀ x ∈ slotCores (remove_visible a), x ∈ slotCores (some a) := by
  intro x hx
  simp only [remove_visible] at hx
  by_cases hc : a.core.kind.container = true
  · rw [if_pos hc] at hx
    rcases hh : a.held with _ | h
    · rw [hh] at hx; cases hx
    · rw [hh] at hx
      have hxh : x = h := by simpa [slotCores] using hx
      simp [slotCores, hh, hxh]
  · rw [if_neg hc] at hx
    by_cases hq : a.core.kind = .queen ∧ a.core.imposter = false
    · rw [if_pos hq] at hx; exact hx
    · rw [if_neg hq] at hx; cases hx

theorem armor_cores (a : Ant) (x : Int) :
    ∀ y ∈ slotCores (some { a with core := { a.core with armor := x } }),
      ∃ z ∈ slotCores (some a), sameData y z := by
  intro y hy
  simp only [slotCores, List.mem_cons] at hy
  rcases hy with hy | hy
  · refine ⟨a.core, by simp [slotCores, List.mem_cons], ?_⟩
    rw [hy]
    exact ⟨rfl, rfl, rfl⟩
  · refine ⟨y, ?_, ⟨rfl, rfl, rfl⟩⟩
    simp only [slotCores, List.mem_cons]
    right
    exact hy

theorem sting_cores (a : Ant) :
    ∀ y ∈ slotCores (sting_ant a), ∃ z ∈ slotCores (some a), sameData y z := by
  intro y hy
  simp only [sting_ant] at hy
  by_cases hdead : ({ a with core := { a.core with armor := reduce_armor a.core.armor 1 } } : Ant).core.armor ≤ 0
  · rw [if_pos hdead] at hy
    have := remove_visible_sub _ y hy
    exact armor_cores a _ y this
  · rw [if_neg hdead] at hy
    exact armor_cores a _ y hy

/-- Removal (with prior armor update) keeps only existing core data. -/
theorem remove_armor_cores (a : Ant) (x : Int) :
    ∀ y ∈ slotCores (remove_visible { a with core := { a.core with armor := x } }),
      ∃ z ∈ slotCores (some a), sameData y z := by
  intro y hy
  exact armor_cores a x y (remove_visible_sub _ y hy)

/-- The workhorse: replacing slot k with cores that are either
existing board data or fresh base-damage cores preserves the
invariant. -/
theorem dmgInv_setSlot {c : Colony} {k : Nat} {v : Option Ant}
    (h : ∀ x ∈ slotCores v,
      (∃ y ∈ boardCores c.tunnel, sameData x y) ∨ x.damage = x.kind.base_damage)
    (hinv : DmgInv c) : DmgInv (setSlot k v c) := by
  intro x hx
  rcases mem_boardCores_setSlot hx with hx | hx
  · exact hinv x hx
  · rcases h x hx with ⟨y, hy, hd⟩ | hfresh
    · exact coreOk_transfer hd (hinv y hy)
    · exact Or.inl hfresh

theorem dmgInv_modBees {c : Colony} (k : Nat) (f : List Bee → List Bee)
    (hinv : DmgInv c) : DmgInv (modBees k f c) :=
  dmgInv_same (boardCores_updateAt_bees _ _ _) rfl hinv

theorem core_update_cores (a : Ant) (nc : AntCore) :
    ∀ y ∈ slotCores (some { a with core := nc }), y = nc ∨ y ∈ slotCores (some a) := by
  intro y hy
  simp only [slotCores, List.mem_cons] at hy
  rcases hy with hy | hy
  · exact Or.inl hy
  · refine Or.inr ?_
    simp only [slotCores, List.mem_cons]
    right
    exact hy

theorem dmgInv_double_push_slot {c : Colony} {k : Nat} {a : Ant}
    (hk : slotAnt c k = some a) (hn : a.core.aid ∉ c.strength)
    (hinv : DmgInv c) :
    DmgInv (pushStrength a.core.aid (double_slot_damage k c)) := by
  intro x hx
  have hmono : ∀ z ∈ c.strength, z ∈ c.strength ++ [a.core.aid] := by
    intro z hz; exact List.mem_append_left _ hz
  have hbx : x ∈ boardCores (setSlot k
      (some { a with core := { a.core with damage := a.core.damage * 2 } }) c).tunnel := by
    have : (slotAnt c k).map (fun a =>
        { a with core := { a.core with damage := a.core.damage * 2 } }) =
        some { a with core := { a.core with damage := a.core.damage * 2 } } := by
      rw [hk]
      rfl
    simpa [pushStrength, double_slot_damage, this] using hx
  rcases mem_boardCores_setSlot hbx with hold | hnew
  · exact coreOk_mono hmono (hinv x hold)
  · rcases core_update_cores a _ x hnew with hx1 | hx2
    · subst hx1
      rcases hinv a.core (slot_sub_boardCores c.tunnel k a hk a.core
        (by simp [slotCores, List.mem_cons])) with hbase | ⟨_, hmem⟩
      · refine Or.inr ⟨?_, ?_⟩
        · show a.core.damage * 2 = 2 * a.core.kind.base_damage
          rw [hbase]; ring
        · show a.core.aid ∈ c.strength ++ [a.core.aid]
          simp
      · exact absurd hmem hn
    · exact coreOk_mono hmono
        (hinv x (slot_sub_boardCores c.tunnel k a hk x hx2))

theorem dmgInv_double_push_held {c : Colony} {k : Nat} {a : Ant} {h : AntCore}
    (hk : slotAnt c k = some a) (hheld : a.held = some h) (hn : h.aid ∉ c.strength)
    (hinv : DmgInv c) :
    DmgInv (pushStrength h.aid (double_held_damage k c)) := by
  intro x hx
  have hmono : ∀ z ∈ c.strength, z ∈ c.strength ++ [h.aid] := by
    intro z hz; exact List.mem_append_left _ hz
  have hbx : x ∈ boardCores (setSlot k
      (some { a with held := some { h with damage := h.damage * 2 } }) c).tunnel := by
    have : (slotAnt c k).map (fun a =>
        { a with held := a.held.map (fun h => { h with damage := h.damage * 2 }) }) =
        some { a with held := some { h with damage := h.damage * 2 } } := by
      rw [hk, Option.map_some']
      simp [hheld]
    simpa [pushStrength, double_held_damage, this] using hx
  have hhb : h ∈ slotCores (some a) := by
    simp [slotCores, List.mem_cons, hheld]
  rcases mem_boardCores_setSlot hbx with hold | hnew
  · exact coreOk_mono hmono (hinv x hold)
  · simp only [slotCores, hheld, List.mem_cons] at hnew
    rcases hnew with hx1 | hx1
    · subst hx1
      exact coreOk_mono hmono
        (hinv a.core (slot_sub_boardCores c.tunnel k a hk a.core
          (by simp [slotCores, List.mem_cons])))
    · have hx2 : x = { h with damage := h.damage * 2 } := by simpa using hx1
      subst hx2
      rcases hinv h (slot_sub_boardCores c.tunnel k a hk h hhb) with hbase | ⟨_, hmem⟩
      · refine Or.inr ⟨?_, ?_⟩
        · show h.damage * 2 = 2 * h.kind.base_damage
          rw [hbase]; ring
        · show h.aid ∈ c.strength ++ [h.aid]
          simp
      · exact absurd hmem hn

theorem strength_check_tunnel_length (k : Nat) (c : Colony) :
    (strength_check k c).tunnel.length = c.tunnel.length := by
  rcases hk : slotAnt c k with _ | a
  · simp only [strength_check, hk]
  · simp only [strength_check, hk]
    by_cases hmem : a.core.aid ∈ c.strength
    · rw [if_pos hmem]
    · rw [if_neg hmem]
      rcases hh : a.held with _ | h
      · simp [pushStrength, double_slot_damage, setSlot, updateAt_length]
      · simp only []
        by_cases hcond : a.core.kind.container = true ∧
          h.aid ∉ (pushStrength a.core.aid (double_slot_damage k c)).strength
        · rw [if_pos hcond]
          simp [pushStrength, double_held_damage, double_slot_damage, setSlot, updateAt_length]
        · rw [if_neg hcond]
          simp [pushStrength, double_slot_damage, setSlot, updateAt_length]

theorem dmgInv_strength_check (k : Nat) {c : Colony} (hinv : DmgInv c) :
    DmgInv (strength_check k c) := by
  rcases hk : slotAnt c k with _ | a
  · simp only [strength_check, hk]
    exact hinv
  · simp only [strength_check, hk]
    by_cases hmem : a.core.aid ∈ c.strength
    · rw [if_pos hmem]; exact hinv
    · rw [if_neg hmem]
      have hc1 : DmgInv (pushStrength a.core.aid (double_slot_damage k c)) :=
        dmgInv_double_push_slot hk hmem hinv
      rcases hh : a.held with _ | h
      · exact hc1
      · simp only []
        by_cases hcond : a.core.kind.container = true ∧
          h.aid ∉ (pushStrength a.core.aid (double_slot_damage k c)).strength
        · rw [if_pos hcond]
          have hklen : k < c.tunnel.length := slotAnt_lt_length hk
          have hk1 : slotAnt (pushStrength a.core.aid (double_slot_damage k c)) k =
              some { a with core := { a.core with damage := a.core.damage * 2 } } := by
            have hmap : (slotAnt c k).map (fun a =>
                { a with core := { a.core with damage := a.core.damage * 2 } }) =
                some { a with core := { a.core with damage := a.core.damage * 2 } } := by
              rw [hk]
              rfl
            exact (slotAnt_setSlot_self c k ((slotAnt c k).map (fun a =>
                { a with core := { a.core with damage := a.core.damage * 2 } })) hklen).trans hmap
          exact dmgInv_double_push_held hk1 (by simpa using hh) hcond.2 hc1
        · rw [if_neg hcond]
          exact hc1

theorem dmgInv_walk (l : List Nat) :
    ∀ {c : Colony}, DmgInv c → DmgInv (l.foldl (fun c j => strength_check j c) c) := by
  induction l with
  | nil => intro c hinv; exact hinv
  | cons j rest ih => intro c hinv; exact ih (dmgInv_strength_check j hinv)

theorem dmgInv_queen_walk_up (k : Nat) {c : Colony} (hinv : DmgInv c) :
    DmgInv (queen_walk_up k c) :=
  dmgInv_walk _ hinv

theorem dmgInv_queen_walk_down (k : Nat) {c : Colony} (hinv : DmgInv c) :
    DmgInv (queen_walk_down k c) :=
  dmgInv_walk _ hinv

theorem dmgInv_popSeed {c : Colony} (hinv : DmgInv c) : DmgInv (popSeed c).2 :=
  dmgInv_same rfl rfl hinv

theorem dmgInv_thrower_action (minR maxR : Nat) (dmg : Int) (k : Nat) {c : Colony}
    (hinv : DmgInv c) : DmgInv (thrower_action minR maxR dmg k c) := by
  rw [thrower_action]
  split
  · exact dmgInv_modBees _ _ (dmgInv_popSeed hinv)
  · exact hinv

theorem dmgInv_long_action (dmg : Int) (k : Nat) {c : Colony}
    (hinv : DmgInv c) : DmgInv (long_action dmg k c) := by
  rw [long_action]
  split
  · split
    · exact dmgInv_modBees _ _ (dmgInv_popSeed hinv)
    · exact hinv
  · exact hinv

theorem dmgInv_queen_action {k : Nat} {qc : AntCore} {c c2 : Colony}
    (h : queen_action k qc c = .ok c2) (hinv : DmgInv c) : DmgInv c2 := by
  have hinv0 : DmgInv { c with captured := c.captured ++ [k] } :=
    dmgInv_same rfl rfl hinv
  rw [queen_action] at h
  simp only [] at h
  by_cases himp : qc.imposter = true
  · rw [if_pos himp] at h
    rcases hk : slotAnt { c with captured := c.captured ++ [k] } k with _ | a
    · rw [hk] at h; cases h
    · rw [hk] at h
      simp only [] at h
      by_cases haid : a.core.aid = qc.aid
      · rw [if_pos haid] at h
        cases h
        refine dmgInv_setSlot ?_ hinv0
        intro x hx
        obtain ⟨z, hz, hd⟩ := remove_armor_cores a _ x hx
        exact Or.inl ⟨z, slot_sub_boardCores _ k a hk z hz, hd⟩
      · rw [if_neg haid] at h; cases h
  · rw [if_neg himp] at h
    have hinv1 : DmgInv (thrower_action AntKind.queen.min_range AntKind.queen.max_range
        qc.damage k { c with captured := c.captured ++ [k] }) :=
      dmgInv_thrower_action _ _ _ _ hinv0
    rcases hk : slotAnt (thrower_action AntKind.queen.min_range AntKind.queen.max_range
        qc.damage k { c with captured := c.captured ++ [k] }) k with _ | a
    · rw [hk] at h; cases h
    · rw [hk] at h
      simp only [] at h
      by_cases hcond : a.core.kind.container = true ∧
          a.core.aid ∉ (thrower_action AntKind.queen.min_range AntKind.queen.max_range
            qc.damage k { c with captured := c.captured ++ [k] }).strength
      · rw [if_pos hcond] at h
        cases h
        exact dmgInv_queen_walk_down _ (dmgInv_queen_walk_up _
          (dmgInv_double_push_slot hk hcond.2 hinv1))
      · rw [if_neg hcond] at h
        cases h
        exact dmgInv_queen_walk_down _ (dmgInv_queen_walk_up _ hinv1)

theorem dmgInv_core_action {k : Nat} {x : AntCore} {c c2 : Colony}
    (h : core_action k x c = .ok c2) (hinv : DmgInv c) : DmgInv c2 := by
  rw [core_action] at h
  rcases hkind : x.kind with _ | _ | _ | _ | _ | _ | _ | _ | _ <;> rw [hkind] at h
  case harvester => cases h; exact dmgInv_same rfl rfl hinv
  case thrower => cases h; exact dmgInv_thrower_action _ _ _ _ hinv
  case long => cases h; exact dmgInv_long_action _ _ hinv
  case short => cases h; exact dmgInv_thrower_action _ _ _ _ hinv
  case scuba => cases h; exact dmgInv_thrower_action _ _ _ _ hinv
  case wall => cases h; exact hinv
  case ninja => cases h; exact dmgInv_modBees _ _ hinv
  case bodyguard => cases h; exact hinv
  case queen => exact dmgInv_queen_action h hinv

theorem dmgInv_ant_action {k : Nat} {a : Ant} {c c2 : Colony}
    (h : ant_action k a c = .ok c2) (hinv : DmgInv c) : DmgInv c2 := by
  rw [ant_action] at h
  rcases hkind : a.core.kind with _ | _ | _ | _ | _ | _ | _ | _ | _ <;> rw [hkind] at h
  case bodyguard =>
    rcases hh : a.held with _ | held
    · rw [hh] at h; cases h; exact hinv
    · rw [hh] at h; exact dmgInv_core_action h hinv
  all_goals exact dmgInv_core_action h hinv

theorem dmgInv_perform_ant {aid : Nat} {c c2 : Colony}
    (h : perform_ant c aid = .ok c2) (hinv : DmgInv c) : DmgInv c2 := by
  rw [perform_ant] at h
  rcases hf : find_ant c.tunnel aid with _ | r
  · rw [hf] at h; cases h; exact hinv
  · rw [hf] at h
    simp only [] at h
    by_cases harm : r.2.core.armor > 0
    · rw [if_pos harm] at h
      exact dmgInv_ant_action h hinv
    · rw [if_neg harm] at h; cases h; exact hinv

theorem foldE_error {α : Type} (step : Colony → α → Except Err Colony) (e : Err) :
    ∀ (l : List α),
      (l.foldl (fun (ec : Except Err Colony) (x : α) =>
        match ec with
        | Except.error e => Except.error e
        | Except.ok c => step c x) (Except.error e)) = Except.error e := by
  intro l
  induction l with
  | nil => rfl
  | cons x rest ih => exact ih

theorem foldE_preserve {α : Type} (P : Colony → Prop)
    (step : Colony → α → Except Err Colony)
    (hstep : ∀ c x c2, step c x = .ok c2 → P c → P c2) :
    ∀ (l : List α) (c c2 : Colony),
      (l.foldl (fun (ec : Except Err Colony) (x : α) =>
        match ec with
        | Except.error e => Except.error e
        | Except.ok c => step c x) (Except.ok c)) = Except.ok c2 → P c → P c2 := by
  intro l
  induction l with
  | nil =>
    intro c c2 h hp
    cases h
    exact hp
  | cons x rest ih =>
    intro c c2 h hp
    rcases hs : step c x with e | c1
    · rw [List.foldl_cons] at h
      simp only [hs] at h
      rw [foldE_error] at h
      cases h
    · rw [List.foldl_cons] at h
      simp only [hs] at h
      exact ih c1 c2 h (hstep c x c1 hs hp)

theorem dmgInv_ant_actions {c c2 : Colony}
    (h : ant_actions c = .ok c2) (hinv : DmgInv c) : DmgInv c2 := by
  rw [ant_actions] at h
  exact foldE_preserve DmgInv perform_ant
    (fun c x c2 hs hp => dmgInv_perform_ant hs hp) _ c c2 h hinv

theorem foldP_preserve {α : Type} (P : Colony → Prop) (step : Colony → α → Colony)
    (hstep : ∀ c x, P c → P (step c x)) :
    ∀ (l : List α) (c : Colony), P c → P (l.foldl step c) := by
  intro l
  induction l with
  | nil => intro c h; exact h
  | cons x rest ih => intro c h; exact ih (step c x) (hstep c x h)

theorem slotAnt_cores_sub {c : Colony} {k : Nat} :
    ∀ x ∈ slotCores (slotAnt c k), x ∈ boardCores c.tunnel := by
  intro x hx
  rcases h : slotAnt c k with _ | a
  · rw [h] at hx; cases hx
  · rw [h] at hx
    exact slot_sub_boardCores c.tunnel k a h x hx

theorem dmgInv_move_bee (k : Nat) (b : Bee) {c : Colony} (hinv : DmgInv c) :
    DmgInv (move_bee k b c) := by
  rw [move_bee]
  split
  · exact dmgInv_same rfl rfl (dmgInv_modBees _ _ hinv)
  · exact dmgInv_modBees _ _ (dmgInv_modBees _ _ hinv)

theorem dmgInv_bee_act {c : Colony} (bid : Nat) (hinv : DmgInv c) :
    DmgInv (bee_act c bid) := by
  rw [bee_act]
  split
  · exact hinv
  · rcases hf : find_bee c.tunnel bid with _ | r
    · exact hinv
    · simp only []
      by_cases harm : r.2.armor > 0
      · rw [if_pos harm]
        rcases hs : slotAnt c r.1 with _ | a
        · exact dmgInv_move_bee _ _ hinv
        · simp only []
          split
          · refine dmgInv_setSlot ?_ hinv
            intro x hx
            obtain ⟨z, hz, hd⟩ := sting_cores a x hx
            exact Or.inl ⟨z, slot_sub_boardCores _ r.1 a hs z hz, hd⟩
          · exact dmgInv_move_bee _ _ hinv
      · rw [if_neg harm]
        exact hinv

theorem dmgInv_bee_actions {c : Colony} (hinv : DmgInv c) : DmgInv (bee_actions c) :=
  foldP_preserve DmgInv bee_act (fun _ x h => dmgInv_bee_act x h) _ c hinv

theorem add_to_slot_cores {s : Option Ant} {insect : Ant} {s1 : Option Ant}
    (hheld : insect.held = none) (h : add_to_slot s insect = .ok s1) :
    ∀ x ∈ slotCores s1, x ∈ slotCores s ∨ x = insect.core := by
  intro x hx
  match s with
  | none =>
    simp only [add_to_slot] at h
    cases h
    simp only [slotCores, hheld, List.mem_cons] at hx
    rcases hx with hx | hx
    · exact Or.inr hx
    · cases hx
  | some e =>
    simp only [add_to_slot] at h
    by_cases h1 : can_contain e insect = true
    · rw [if_pos h1] at h
      cases h
      have he : e.held = none := by
        simp only [can_contain, Bool.and_eq_true, Option.isNone_iff_eq_none] at h1
        exact h1.2
      simp only [slotCores, List.mem_cons] at hx
      rcases hx with hx | hx
      · exact Or.inl (by simp [slotCores, List.mem_cons, hx])
      · have : x = insect.core := by simpa using hx
        exact Or.inr this
    · rw [if_neg h1] at h
      by_cases h2 : can_contain insect e = true
      · rw [if_pos h2] at h
        cases h
        simp only [slotCores, List.mem_cons] at hx
        rcases hx with hx | hx
        · exact Or.inr hx
        · have : x = e.core := by simpa using hx
          exact Or.inl (by simp [slotCores, List.mem_cons, this])
      · rw [if_neg h2] at h
        cases h

theorem dmgInv_add_insect_deploy {k : Nat} {insect : Ant} {cost : Int} {c c2 : Colony}
    (hheld : insect.held = none)
    (hfresh : insect.core.damage = insect.core.kind.base_damage)
    (h : add_insect_deploy k insect cost c = .ok c2)
    (hinv : DmgInv c) : DmgInv c2 := by
  rw [add_insect_deploy] at h
  rcases hadd : add_to_slot (slotAnt c k) insect with e | slot1
  · rw [hadd] at h; cases h
  · rw [hadd] at h
    simp only [] at h
    have hc1 : DmgInv (setSlot k slot1 c) := by
      refine dmgInv_setSlot ?_ hinv
      intro x hx
      rcases add_to_slot_cores hheld hadd x hx with hold | hnew
      · exact Or.inl ⟨x, slotAnt_cores_sub x hold, rfl, rfl, rfl⟩
      · exact Or.inr (by rw [hnew]; exact hfresh)
    by_cases hw : waterAt (setSlot k slot1 c) k = true ∧ insect.core.kind.watersafe = false
    · rw [if_pos hw] at h
      rcases hs1 : slotAnt (setSlot k slot1 c) k with _ | a
      · rw [hs1] at h; cases h
      · rw [hs1] at h
        simp only [] at h
        by_cases haid : a.core.aid = insect.core.aid
        · rw [if_pos haid] at h
          cases h
          refine dmgInv_same rfl rfl (dmgInv_setSlot ?_ hc1)
          intro x hx
          obtain ⟨z, hz, hd⟩ := remove_armor_cores a _ x hx
          exact Or.inl ⟨z, slot_sub_boardCores _ k a hs1 z hz, hd⟩
        · rw [if_neg haid] at h; cases h
    · rw [if_neg hw] at h
      cases h
      exact dmgInv_same rfl rfl hc1

theorem dmgInv_deploy_ant {c : Colony} {k : Nat} {name : String} {c2 : Colony}
    (h : deploy_ant c k name = .ok c2) (hinv : DmgInv c) : DmgInv c2 := by
  rw [deploy_ant] at h
  rcases hl : ant_types_lookup name with _ | kind
  · rw [hl] at h; cases h
  · rw [hl] at h
    simp only [] at h
    by_cases hf : c.food < kind.food_cost
    · rw [if_pos hf] at h
      cases h
      exact hinv
    · rw [if_neg hf] at h
      by_cases hk : k < c.tunnel.length
      · rw [if_pos hk] at h
        refine dmgInv_add_insect_deploy rfl rfl h ?_
        by_cases hq : kind = .queen
        · rw [if_pos hq]
          exact dmgInv_same rfl rfl hinv
        · rw [if_neg hq]
          exact dmgInv_same rfl rfl hinv
      · rw [if_neg hk] at h; cases h

theorem dmgInv_remove_ant {c : Colony} {k : Nat} {c2 : Colony}
    (h : remove_ant c k = .ok c2) (hinv : DmgInv c) : DmgInv c2 := by
  rw [remove_ant] at h
  by_cases hk : k < c.tunnel.length
  · rw [if_pos hk] at h
    rcases hs : slotAnt c k with _ | a
    · rw [hs] at h; cases h; exact hinv
    · rw [hs] at h
      cases h
      refine dmgInv_setSlot ?_ hinv
      intro x hx
      exact Or.inl ⟨x, slot_sub_boardCores _ k a hs x (remove_visible_sub a x hx),
        rfl, rfl, rfl⟩
  · rw [if_neg hk] at h; cases h

theorem dmgInv_apply_command {c : Colony} {cmd : Command} {c2 : Colony}
    (h : apply_command c cmd = .ok c2) (hinv : DmgInv c) : DmgInv c2 := by
  match cmd with
  | .deployCmd k name => exact dmgInv_deploy_ant h hinv
  | .removeCmd k => exact dmgInv_remove_ant h hinv

theorem dmgInv_deploy_step {cmds : List Command} {c c2 : Colony}
    (h : deploy_step cmds c = .ok c2) (hinv : DmgInv c) : DmgInv c2 := by
  rw [deploy_step] at h
  exact foldE_preserve DmgInv apply_command
    (fun c x c2 hs hp => dmgInv_apply_command hs hp) _ c c2 h hinv

theorem dmgInv_wave_release {c : Colony} (hinv : DmgInv c) : DmgInv (wave_release c) := by
  rw [wave_release]
  refine foldP_preserve DmgInv _ ?_ _ _ (dmgInv_same rfl rfl hinv)
  intro c1 tb h1
  exact dmgInv_modBees _ _ (dmgInv_popSeed h1)

theorem dmgInv_tick {strat : Strategy} {c c2 : Colony}
    (h : tick strat c = .ok c2) (hinv : DmgInv c) : DmgInv c2 := by
  rw [tick] at h
  rcases hd : deploy_step (strat (wave_release c).time) (wave_release c) with e | cA
  · rw [hd] at h; cases h
  · rw [hd] at h
    simp only [] at h
    rcases ha : ant_actions cA with e | cB
    · rw [ha] at h; cases h
    · rw [ha] at h
      cases h
      exact dmgInv_same rfl rfl
        (dmgInv_bee_actions (dmgInv_ant_actions ha
          (dmgInv_deploy_step hd (dmgInv_wave_release hinv))))

theorem dmgInv_run_ticks {strat : Strategy} :
    ∀ (n : Nat) {c c2 : Colony}, run_ticks strat n c = .ok c2 → DmgInv c → DmgInv c2 := by
  intro n
  induction n with
  | zero =>
    intro c c2 h hinv
    cases h
    exact hinv
  | succ m ih =>
    intro c c2 h hinv
    rw [run_ticks] at h
    rcases ht : tick strat c with e | c1
    · rw [ht] at h; cases h
    · rw [ht] at h
      exact ih h (dmgInv_tick ht hinv)

theorem boardCores_replicate (n : Nat) :
    boardCores (List.replicate n { ant := none, bees := [], water := false }) = [] := by
  induction n with
  | zero => rfl
  | succ m ih => simpa [List.replicate, boardCores, slotCores] using ih

theorem dmgInv_mk_colony (len : Nat) (food : Int) (plan : List (Nat × Int)) :
    DmgInv (mk_colony len food plan) := by
  intro x hx
  have hx2 : x ∈ boardCores
      (List.replicate len { ant := none, bees := [], water := false }) := hx
  rw [boardCores_replicate] at hx2
  cases hx2

/-- C1: across an entire simulation run — any number of ticks with
any placement strategy, starting from an initial colony (or any state
satisfying the damage invariant) — every defender core on the board
carries either its original (kind base) damage or exactly twice it,
never more: the queen buff doubles each defender at most once no
matter how many times the true queen acts and revisits its location,
directly or as a held unit inside a container. -/
theorem c1_buff_at_most_once (strat : Strategy) (n : Nat) (c c2 : Colony)
    (hinv : DmgInv c) (hrun : run_ticks strat n c = .ok c2) :
    ∀ x ∈ boardCores c2.tunnel,
      x.damage = x.kind.base_damage ∨ x.damage = 2 * x.kind.base_damage := by
  intro x hx
  rcases dmgInv_run_ticks n hrun hinv x hx with h | ⟨h, _⟩
  · exact Or.inl h
  · exact Or.inr h

/-- Extract the colony from an engine result. -/
def except_ok (d : Colony) : Except Err Colony → Colony
  | .ok c => c
  | .error _ => d

/-- The witness strategy for C1: a thrower, a bodyguard-held ninja
and the true queen share the tunnel, and the queen acts on two
consecutive ticks. -/
def stratW : Strategy := fun t =>
  if t = 0 then
    [.deployCmd 0 "Thrower", .deployCmd 1 "Bodyguard", .deployCmd 1 "Ninja",
     .deployCmd 2 "Queen"]
  else []

/-- The thrower core as it stands on the board after two ticks of the
witness scenario: the queen buff has doubled its damage once. -/
def coreW : AntCore :=
  { aid := 0, kind := .thrower, armor := 1, damage := 2, imposter := false }

/-- C1 witness: the buffed thrower of the witness run carries base or
exactly doubled damage. -/
theorem c1_witness :
    coreW.damage = coreW.kind.base_damage ∨ coreW.damage = 2 * coreW.kind.base_damage := by
  have h : run_ticks stratW 2 (mk_colony 4 99 []) =
      .ok (except_ok (mk_colony 4 99 []) (run_ticks stratW 2 (mk_colony 4 99 []))) := by
    decide
  exact c1_buff_at_most_once stratW 2 (mk_colony 4 99 []) _
    (dmgInv_mk_colony 4 99 []) h coreW (by decide)

/-- Concrete colony for the C8 witness: a bodyguard holding a
thrower occupies the sole place. -/
def colW8 : Colony :=
  { antQueenBees := []
    tunnel := [{ ant := some { core := bodyguardW.core, held := some throwerW.core },
                 bees := [], water := false }]
    hive := []
    food := 0
    time := 0
    captured := []
    queenExists := false
    strength := []
    nextId := 2
    seeds := [] }

/-- C8 witness: removing the holding bodyguard of colW8 promotes the
held thrower to sole occupant and it appears in the ants snapshot. -/
theorem c8_witness :
    remove_ant colW8 0 =
      .ok (setSlot 0 (some { core := throwerW.core, held := none }) colW8) ∧
    slotAnt (setSlot 0 (some { core := throwerW.core, held := none }) colW8) 0 =
      some { core := throwerW.core, held := none } ∧
    throwerW.core.aid ∈
      ants_snapshot (setSlot 0 (some { core := throwerW.core, held := none }) colW8).tunnel :=
  c8_container_reveal colW8 0 { core := bodyguardW.core, held := some throwerW.core }
    throwerW.core (by decide) rfl rfl rfl

end AntsGame
